import Mathlib

/-!
Shallow embedding of the TrustVault contract
(src/frontend/src/pages/Index.tsx, the Solidity contract after the
frontend component) together with a symbolic model of the external
FHEVM encryption capability. Addresses and ciphertext handles are
natural numbers; the zero address is the null identity and the zero
handle is the uninitialized (default) ciphertext slot, matching the
Solidity mapping defaults. Solidity mappings are association lists
with a default value on missing keys.
-/

deriving instance DecidableEq for Except

namespace TrustVault

/-- Lookup in an association list keyed by naturals (Solidity mapping read). -/
def alookup {β : Type} (k : Nat) : List (Nat × β) → Option β
  | [] => none
  | (k', v) :: rest => if k = k' then some v else alookup k rest

/-- Update-or-append in an association list (Solidity mapping write). -/
def aset {β : Type} (k : Nat) (v : β) : List (Nat × β) → List (Nat × β)
  | [] => [(k, v)]
  | (k', v') :: rest => if k = k' then (k, v) :: rest else (k', v') :: aset k v rest

theorem alookup_aset_self {β : Type} (k : Nat) (v : β) (m : List (Nat × β)) :
    alookup k (aset k v m) = some v := by
  induction m with
  | nil => simp [aset, alookup]
  | cons hd tl ih =>
    obtain ⟨k', v'⟩ := hd
    by_cases h : k = k' <;> simp [aset, alookup, h, ih]

theorem alookup_aset_ne {β : Type} (k j : Nat) (v : β) (m : List (Nat × β))
    (h : j ≠ k) : alookup j (aset k v m) = alookup j m := by
  induction m with
  | nil => simp [aset, alookup, h]
  | cons hd tl ih =>
    obtain ⟨k', v'⟩ := hd
    by_cases hk : k = k'
    · subst hk
      simp [aset, alookup, h]
    · by_cases hj : j = k' <;> simp [aset, alookup, hk, hj, ih]

/-- A stored rating: rater address, ciphertext handle of the score, timestamp.
The subject is not stored in the record; it is the index key of userRatings. -/
structure Rating where
  rater : Nat
  encryptedScore : Nat
  timestamp : Nat
deriving DecidableEq, Repr

/-- Per-subject score data: encrypted running total, encrypted count,
public plaintext count, and the viewer-authorization relation. -/
structure UserScore where
  encryptedTotalScore : Nat
  encryptedCount : Nat
  publicCount : Nat
  authorizedViewers : List (Nat × Bool)
deriving DecidableEq, Repr

/-- Solidity mapping default for UserScore: zero handles, zero count, empty relation. -/
def emptyUserScore : UserScore := ⟨0, 0, 0, []⟩

/-- Model of the external encryption capability (the FHEVM library, outside
this repository and treated by the spec as an opaque capability): handles are
opaque identifiers issued sequentially starting at 1; each issued handle has a
plaintext; allowThis and allow record decryption grants per handle. Homomorphic
add issues a fresh handle whose plaintext is the sum of the operands'
plaintexts, as the spec's collaborator interface describes. -/
structure FHE where
  nextHandle : Nat
  plain : List (Nat × Nat)
  aclThis : List Nat
  aclUser : List (Nat × Nat)
deriving DecidableEq, Repr

/-- FHE.fromExternal: issue a fresh handle holding the caller's plaintext. -/
def FHE.fromExternal (f : FHE) (value : Nat) : FHE × Nat :=
  ({ f with nextHandle := f.nextHandle + 1,
            plain := aset f.nextHandle value f.plain }, f.nextHandle)

/-- FHE.asEuint32 on a constant: issue a fresh trivially-encrypted handle. -/
def FHE.asEuint32 (f : FHE) (value : Nat) : FHE × Nat :=
  ({ f with nextHandle := f.nextHandle + 1,
            plain := aset f.nextHandle value f.plain }, f.nextHandle)

/-- FHE.add: issue a fresh handle whose plaintext is the sum of the operands'. -/
def FHE.addH (f : FHE) (h1 h2 : Nat) : FHE × Nat :=
  ({ f with nextHandle := f.nextHandle + 1,
            plain := aset f.nextHandle
              ((alookup h1 f.plain).getD 0 + (alookup h2 f.plain).getD 0)
              f.plain }, f.nextHandle)

/-- FHE.allowThis: grant the contract decryption/compute permission on a handle. -/
def FHE.allowThis (f : FHE) (h : Nat) : FHE :=
  { f with aclThis := h :: f.aclThis }

/-- FHE.allow: grant an address decryption permission on a handle. -/
def FHE.allowU (f : FHE) (h : Nat) (addr : Nat) : FHE :=
  { f with aclUser := (h, addr) :: f.aclUser }

/-- Test-double decryption: read back the plaintext of an issued handle. -/
def FHE.decrypt (f : FHE) (h : Nat) : Option Nat :=
  alookup h f.plain

/-- Events emitted by the contract. -/
inductive Event where
  | RatingSubmitted (ratingId ratedUser rater timestamp : Nat)
  | ViewerAuthorized (user viewer : Nat)
  | ViewerRevoked (user viewer : Nat)
deriving DecidableEq, Repr

/-- The error kinds of the contract's require statements, named as in the spec. -/
inductive Err where
  | InvalidSubject
  | SelfRatingRejected
  | InvalidViewer
  | SelfAuthorizationRejected
  | NoAggregateYet
  | AlreadyAuthorized
  | NotAuthorized
  | NotFound
deriving DecidableEq, Repr

/-- Contract storage plus the encryption capability's symbolic state and
the emitted event log. -/
structure St where
  userScores : List (Nat × UserScore)
  userRatings : List (Nat × List Nat)
  ratings : List (Nat × Rating)
  totalRatings : Nat
  fhe : FHE
  events : List Event
deriving DecidableEq, Repr

/-- Read of userScores[u] with the Solidity mapping default. -/
def getScoreOf (σ : St) (u : Nat) : UserScore :=
  (alookup u σ.userScores).getD emptyUserScore

/-- Read of userRatings[u] with the Solidity mapping default. -/
def getRatingsOf (σ : St) (u : Nat) : List Nat :=
  (alookup u σ.userRatings).getD []

/-- The state of a freshly deployed contract: empty storage, fresh capability. -/
def initSt : St :=
  { userScores := [], userRatings := [], ratings := [],
    totalRatings := 0, fhe := ⟨1, [], [], []⟩, events := [] }

/-- The success path of submitRating, translated line by line from the source:
assign the next id, bump the counter, import the external ciphertext, grant it
to the contract and the rater, store the rating, index it under the subject,
seed or fold the subject's aggregate, refresh the contract's and subject's
grants on the refreshed handles, bump publicCount, and emit RatingSubmitted. -/
def submitRatingBody (σ : St) (sender ratedUser score timestamp : Nat) : St :=
  let ratingId := σ.totalRatings
  let fh := σ.fhe.fromExternal score
  let h := fh.2
  let f3 := (fh.1.allowThis h).allowU h sender
  let ratings' := aset ratingId ⟨sender, h, timestamp⟩ σ.ratings
  let userRatings' := aset ratedUser (getRatingsOf σ ratedUser ++ [ratingId]) σ.userRatings
  let sc := getScoreOf σ ratedUser
  let ftc : FHE × Nat × Nat :=
    if sc.publicCount = 0 then
      let fo := f3.asEuint32 1
      (fo.1, h, fo.2)
    else
      let ft := f3.addH sc.encryptedTotalScore h
      let fo := ft.1.asEuint32 1
      let fc := fo.1.addH sc.encryptedCount fo.2
      (fc.1, ft.2, fc.2)
  let tot := ftc.2.1
  let cnt := ftc.2.2
  let f6 := (((ftc.1.allowThis tot).allowThis cnt).allowU tot ratedUser).allowU cnt ratedUser
  let sc' : UserScore := ⟨tot, cnt, sc.publicCount + 1, sc.authorizedViewers⟩
  { userScores := aset ratedUser sc' σ.userScores,
    userRatings := userRatings',
    ratings := ratings',
    totalRatings := σ.totalRatings + 1,
    fhe := f6,
    events := σ.events ++ [.RatingSubmitted ratingId ratedUser sender timestamp] }

/-- submitRating: the two require checks guard the body; on a revert the
storage is returned unchanged; on success the new rating id is returned. -/
def submitRating (σ : St) (sender ratedUser score timestamp : Nat) :
    St × Except Err Nat :=
  if ratedUser = 0 then (σ, .error .InvalidSubject)
  else if ratedUser = sender then (σ, .error .SelfRatingRejected)
  else (submitRatingBody σ sender ratedUser score timestamp, .ok σ.totalRatings)

/-- getEncryptedScore: read-only view of a subject's aggregate. -/
def getEncryptedScore (σ : St) (user : Nat) : Nat × Nat × Nat :=
  let sc := getScoreOf σ user
  (sc.encryptedTotalScore, sc.encryptedCount, sc.publicCount)

/-- authorizeViewer, translated line by line: four require checks, then flip
the relation active, grant the viewer decryption on the current handles, and
emit ViewerAuthorized. -/
def authorizeViewer (σ : St) (sender viewer : Nat) : St × Except Err Unit :=
  if viewer = 0 then (σ, .error .InvalidViewer)
  else if viewer = sender then (σ, .error .SelfAuthorizationRejected)
  else
    let sc := getScoreOf σ sender
    if sc.publicCount = 0 then (σ, .error .NoAggregateYet)
    else if (alookup viewer sc.authorizedViewers).getD false then
      (σ, .error .AlreadyAuthorized)
    else
      let sc' : UserScore :=
        { sc with authorizedViewers := aset viewer true sc.authorizedViewers }
      let f2 := (σ.fhe.allowU sc.encryptedTotalScore viewer).allowU sc.encryptedCount viewer
      ({ σ with userScores := aset sender sc' σ.userScores,
                fhe := f2,
                events := σ.events ++ [.ViewerAuthorized sender viewer] }, .ok ())

/-- revokeViewer, translated line by line: require the relation active, flip
it inactive, emit ViewerRevoked. No capability grant is retracted. -/
def revokeViewer (σ : St) (sender viewer : Nat) : St × Except Err Unit :=
  let sc := getScoreOf σ sender
  if (alookup viewer sc.authorizedViewers).getD false then
    let sc' : UserScore :=
      { sc with authorizedViewers := aset viewer false sc.authorizedViewers }
    ({ σ with userScores := aset sender sc' σ.userScores,
              events := σ.events ++ [.ViewerRevoked sender viewer] }, .ok ())
  else (σ, .error .NotAuthorized)

/-- isAuthorized: self-view is implicit, otherwise the stored relation state. -/
def isAuthorized (σ : St) (user viewer : Nat) : Bool :=
  if user = viewer then true
  else ((alookup viewer (getScoreOf σ user).authorizedViewers).getD false)

/-- getUserRatings: read-only view of a subject's rating-id index. -/
def getUserRatings (σ : St) (user : Nat) : List Nat :=
  getRatingsOf σ user

/-- getRating: read-only lookup of a rating by id; the mapping default has a
zero rater, which the source uses as the existence check. -/
def getRating (σ : St) (ratingId : Nat) : Except Err Rating :=
  let r := (alookup ratingId σ.ratings).getD ⟨0, 0, 0⟩
  if r.rater = 0 then .error .NotFound else .ok r

/-- The ledger operations, for stating transition-system properties. -/
inductive Op where
  | submit (sender ratedUser score timestamp : Nat)
  | authorize (sender viewer : Nat)
  | revoke (sender viewer : Nat)
  | getRatingQ (ratingId : Nat)
deriving DecidableEq, Repr

/-- One transaction: the resulting storage and the error, if the call reverted.
View calls return the state unchanged by construction of the EVM. -/
def runOp (σ : St) : Op → St × Option Err
  | .submit sender ratedUser score timestamp =>
    let r := submitRating σ sender ratedUser score timestamp
    (r.1, match r.2 with | .ok _ => none | .error e => some e)
  | .authorize sender viewer =>
    let r := authorizeViewer σ sender viewer
    (r.1, match r.2 with | .ok _ => none | .error e => some e)
  | .revoke sender viewer =>
    let r := revokeViewer σ sender viewer
    (r.1, match r.2 with | .ok _ => none | .error e => some e)
  | .getRatingQ ratingId =>
    (σ, match getRating σ ratingId with | .ok _ => none | .error e => some e)

/-- The three data stores of the claim on transactional rollback: rating log
with its id counter, per-subject aggregates, and the authorization relation
(the latter two both live in userScores). -/
def stores (σ : St) : List (Nat × Rating) × Nat × List (Nat × List Nat) × List (Nat × UserScore) :=
  (σ.ratings, σ.totalRatings, σ.userRatings, σ.userScores)

/-- States reachable from a fresh deployment by any sequence of transactions. -/
inductive Reachable : St → Prop where
  | init : Reachable initSt
  | step (σ : St) (op : Op) : Reachable σ → Reachable (runOp σ op).1

/-- Run a list of submitRating calls (rater, score, timestamp) for one subject,
stopping with none if any call reverts. -/
def runSubmits (σ : St) (subject : Nat) : List (Nat × Nat × Nat) → Option St
  | [] => some σ
  | (rater, score, ts) :: rest =>
    match submitRating σ rater subject score ts with
    | (σ', .ok _) => runSubmits σ' subject rest
    | (_, .error _) => none

/-- The aggregate of subject u holds exactly the plaintext scores in the list:
its public count is the number of scores, its handles are issued (below the
capability's next fresh handle), and once the list is nonempty the total
handle decrypts to the sum of the scores and the count handle to their number. -/
def GoodAgg (σ : St) (u : Nat) (scores : List Nat) : Prop :=
  (getScoreOf σ u).publicCount = scores.length ∧
  (getScoreOf σ u).encryptedTotalScore < σ.fhe.nextHandle ∧
  (getScoreOf σ u).encryptedCount < σ.fhe.nextHandle ∧
  1 ≤ σ.fhe.nextHandle ∧
  (scores ≠ [] →
    FHE.decrypt σ.fhe (getScoreOf σ u).encryptedTotalScore = some scores.sum ∧
    FHE.decrypt σ.fhe (getScoreOf σ u).encryptedCount = some scores.length)

/-- Reading a score out of a literal state record. -/
theorem getScoreOf_mk (us : List (Nat × UserScore)) (ur : List (Nat × List Nat))
    (rs : List (Nat × Rating)) (tot : Nat) (f : FHE) (ev : List Event) (u : Nat) :
    getScoreOf ⟨us, ur, rs, tot, f, ev⟩ u = (alookup u us).getD emptyUserScore := rfl

/-- Reading a rating index out of a literal state record. -/
theorem getRatingsOf_mk (us : List (Nat × UserScore)) (ur : List (Nat × List Nat))
    (rs : List (Nat × Rating)) (tot : Nat) (f : FHE) (ev : List Event) (u : Nat) :
    getRatingsOf ⟨us, ur, rs, tot, f, ev⟩ u = (alookup u ur).getD [] := rfl

/-- Effect of the submitRating success path on the subject's aggregate when it
is the subject's first rating: the total handle becomes the fresh score handle,
the count handle a fresh encryption of 1, and the public count becomes 1. -/
theorem body_first (σ : St) (sender u score ts : Nat)
    (hpc : (getScoreOf σ u).publicCount = 0) :
    getScoreOf (submitRatingBody σ sender u score ts) u
      = ⟨σ.fhe.nextHandle, σ.fhe.nextHandle + 1, 1,
         (getScoreOf σ u).authorizedViewers⟩ ∧
    (submitRatingBody σ sender u score ts).fhe.nextHandle = σ.fhe.nextHandle + 2 ∧
    FHE.decrypt (submitRatingBody σ sender u score ts).fhe σ.fhe.nextHandle
      = some score ∧
    FHE.decrypt (submitRatingBody σ sender u score ts).fhe (σ.fhe.nextHandle + 1)
      = some 1 := by
  simp [submitRatingBody, hpc, getScoreOf_mk, alookup_aset_self, alookup_aset_ne,
    FHE.fromExternal, FHE.asEuint32, FHE.allowThis, FHE.allowU, FHE.decrypt]

/-- Effect of the submitRating success path on the subject's aggregate when an
aggregate already exists: both handles are replaced by fresh homomorphic sums
and the public count goes up by one. -/
theorem body_fold_score (σ : St) (sender u score ts : Nat)
    (hpc : (getScoreOf σ u).publicCount ≠ 0) :
    getScoreOf (submitRatingBody σ sender u score ts) u
      = ⟨σ.fhe.nextHandle + 1, σ.fhe.nextHandle + 3,
         (getScoreOf σ u).publicCount + 1, (getScoreOf σ u).authorizedViewers⟩ ∧
    (submitRatingBody σ sender u score ts).fhe.nextHandle = σ.fhe.nextHandle + 4 := by
  simp [submitRatingBody, hpc, getScoreOf_mk, alookup_aset_self,
    FHE.fromExternal, FHE.asEuint32, FHE.addH, FHE.allowThis, FHE.allowU]

/-- Plaintext content of the refreshed handles in the fold case: the new total
decrypts to the old total plus the new score, the new count to the old count
plus one. -/
theorem body_fold_decrypt (σ : St) (sender u score ts : Nat)
    (hpc : (getScoreOf σ u).publicCount ≠ 0)
    (htot : (getScoreOf σ u).encryptedTotalScore < σ.fhe.nextHandle)
    (hcnt : (getScoreOf σ u).encryptedCount < σ.fhe.nextHandle) :
    FHE.decrypt (submitRatingBody σ sender u score ts).fhe (σ.fhe.nextHandle + 1)
      = some ((FHE.decrypt σ.fhe (getScoreOf σ u).encryptedTotalScore).getD 0 + score) ∧
    FHE.decrypt (submitRatingBody σ sender u score ts).fhe (σ.fhe.nextHandle + 3)
      = some ((FHE.decrypt σ.fhe (getScoreOf σ u).encryptedCount).getD 0 + 1) := by
  have h1 : (getScoreOf σ u).encryptedTotalScore ≠ σ.fhe.nextHandle := Nat.ne_of_lt htot
  have h2 : (getScoreOf σ u).encryptedCount ≠ σ.fhe.nextHandle := Nat.ne_of_lt hcnt
  have h3 : (getScoreOf σ u).encryptedCount ≠ σ.fhe.nextHandle + 1 := by omega
  have h4 : (getScoreOf σ u).encryptedCount ≠ σ.fhe.nextHandle + 2 := by omega
  simp [submitRatingBody, hpc, getScoreOf_mk, alookup_aset_self, alookup_aset_ne,
    FHE.fromExternal, FHE.asEuint32, FHE.addH, FHE.allowThis, FHE.allowU,
    FHE.decrypt, h1, h2, h3, h4]

/-- The submitRating success path bumps the subject's public count by exactly
one and leaves the subject's viewer relation untouched. -/
theorem body_publicCount_self (σ : St) (sender u score ts : Nat) :
    (getScoreOf (submitRatingBody σ sender u score ts) u).publicCount
      = (getScoreOf σ u).publicCount + 1 ∧
    (getScoreOf (submitRatingBody σ sender u score ts) u).authorizedViewers
      = (getScoreOf σ u).authorizedViewers := by
  constructor <;> simp [submitRatingBody, getScoreOf_mk, alookup_aset_self]

/-- The submitRating success path leaves every other subject's record alone. -/
theorem getScoreOf_body_other (σ : St) (sender u score ts w : Nat) (hw : w ≠ u) :
    getScoreOf (submitRatingBody σ sender u score ts) w = getScoreOf σ w := by
  simp [submitRatingBody, getScoreOf, alookup_aset_ne, hw]

/-- Bookkeeping effects of the submitRating success path: counter up by one,
the new record stored under the fresh id, the id appended to the subject's
index, other subjects' indexes untouched, fresh-handle counter monotone. -/
theorem body_misc (σ : St) (sender u score ts : Nat) :
    (submitRatingBody σ sender u score ts).totalRatings = σ.totalRatings + 1 ∧
    (submitRatingBody σ sender u score ts).ratings
      = aset σ.totalRatings ⟨sender, σ.fhe.nextHandle, ts⟩ σ.ratings ∧
    getRatingsOf (submitRatingBody σ sender u score ts) u
      = getRatingsOf σ u ++ [σ.totalRatings] ∧
    (∀ w, w ≠ u → getRatingsOf (submitRatingBody σ sender u score ts) w
      = getRatingsOf σ w) ∧
    σ.fhe.nextHandle ≤ (submitRatingBody σ sender u score ts).fhe.nextHandle := by
  refine ⟨by simp [submitRatingBody], by simp [submitRatingBody, FHE.fromExternal],
    by simp [submitRatingBody, getRatingsOf_mk, alookup_aset_self], ?_, ?_⟩
  · intro w hw
    simp [submitRatingBody, getRatingsOf, alookup_aset_ne, hw]
  · by_cases hpc : (getScoreOf σ u).publicCount = 0
    · have h := (body_first σ sender u score ts hpc).2.1
      omega
    · have h := (body_fold_score σ sender u score ts hpc).2
      omega

/-- authorizeViewer never touches the rating log, the id counter, the rating
indexes, the issued plaintexts, or any subject's aggregate fields other than
the caller's viewer relation. -/
theorem authorize_preserves (σ : St) (s v : Nat) :
    (authorizeViewer σ s v).1.userRatings = σ.userRatings ∧
    (authorizeViewer σ s v).1.ratings = σ.ratings ∧
    (authorizeViewer σ s v).1.totalRatings = σ.totalRatings ∧
    (authorizeViewer σ s v).1.fhe.nextHandle = σ.fhe.nextHandle ∧
    (authorizeViewer σ s v).1.fhe.plain = σ.fhe.plain ∧
    (∀ w, (getScoreOf (authorizeViewer σ s v).1 w).publicCount
            = (getScoreOf σ w).publicCount ∧
          (getScoreOf (authorizeViewer σ s v).1 w).encryptedTotalScore
            = (getScoreOf σ w).encryptedTotalScore ∧
          (getScoreOf (authorizeViewer σ s v).1 w).encryptedCount
            = (getScoreOf σ w).encryptedCount) := by
  by_cases h0 : v = 0
  · simp [authorizeViewer, h0]
  · by_cases hs : v = s
    · subst hs
      simp [authorizeViewer, h0]
    · by_cases hc : (getScoreOf σ s).publicCount = 0
      · simp [authorizeViewer, h0, hs, hc]
      · by_cases ha : (alookup v (getScoreOf σ s).authorizedViewers).getD false
        · simp [authorizeViewer, h0, hs, hc, ha]
        · have hstate : (authorizeViewer σ s v).1 =
            { σ with
              userScores := aset s
                { getScoreOf σ s with
                  authorizedViewers := aset v true (getScoreOf σ s).authorizedViewers }
                σ.userScores,
              fhe := (σ.fhe.allowU (getScoreOf σ s).encryptedTotalScore v).allowU
                (getScoreOf σ s).encryptedCount v,
              events := σ.events ++ [.ViewerAuthorized s v] } := by
            simp [authorizeViewer, h0, hs, hc, ha]
          rw [hstate]
          refine ⟨rfl, rfl, rfl, by simp [FHE.allowU], by simp [FHE.allowU], ?_⟩
          intro w
          by_cases hw : w = s
          · subst hw
            simp [getScoreOf, alookup_aset_self]
          · simp [getScoreOf, alookup_aset_ne, hw]

/-- revokeViewer never touches the rating log, the id counter, the rating
indexes, the capability state, or any subject's aggregate fields other than
the caller's viewer relation. -/
theorem revoke_preserves (σ : St) (s v : Nat) :
    (revokeViewer σ s v).1.userRatings = σ.userRatings ∧
    (revokeViewer σ s v).1.ratings = σ.ratings ∧
    (revokeViewer σ s v).1.totalRatings = σ.totalRatings ∧
    (revokeViewer σ s v).1.fhe = σ.fhe ∧
    (∀ w, (getScoreOf (revokeViewer σ s v).1 w).publicCount
            = (getScoreOf σ w).publicCount ∧
          (getScoreOf (revokeViewer σ s v).1 w).encryptedTotalScore
            = (getScoreOf σ w).encryptedTotalScore ∧
          (getScoreOf (revokeViewer σ s v).1 w).encryptedCount
            = (getScoreOf σ w).encryptedCount) := by
  by_cases ha : (alookup v (getScoreOf σ s).authorizedViewers).getD false
  · have hstate : (revokeViewer σ s v).1 =
      { σ with
        userScores := aset s
          { getScoreOf σ s with
            authorizedViewers := aset v false (getScoreOf σ s).authorizedViewers }
          σ.userScores,
        events := σ.events ++ [.ViewerRevoked s v] } := by
      simp [revokeViewer, ha]
    rw [hstate]
    refine ⟨rfl, rfl, rfl, rfl, ?_⟩
    intro w
    by_cases hw : w = s
    · subst hw
      simp [getScoreOf, alookup_aset_self]
    · simp [getScoreOf, alookup_aset_ne, hw]
  · simp [revokeViewer, ha]

/-- C7: isAuthorized is unconditionally true on the diagonal: in any state,
however it was produced by grants and revokes, every identity is authorized
to view its own aggregate. -/
theorem self_view_always_authorized (σ : St) (x : Nat) :
    isAuthorized σ x x = true := by
  simp [isAuthorized]

/-- C4: submitRating fails with InvalidSubject exactly when the subject is the
null identity, fails with SelfRatingRejected exactly when the subject equals
the rater and is not null (the null check takes precedence), succeeds with the
newly assigned rating id on all other inputs, and mutates nothing on failure. -/
theorem submitRating_validation (σ : St) (sender ratedUser score ts : Nat) :
    ((submitRating σ sender ratedUser score ts).2 = .error .InvalidSubject ↔
      ratedUser = 0) ∧
    ((submitRating σ sender ratedUser score ts).2 = .error .SelfRatingRejected ↔
      (ratedUser ≠ 0 ∧ ratedUser = sender)) ∧
    (ratedUser ≠ 0 → ratedUser ≠ sender →
      (submitRating σ sender ratedUser score ts).2 = .ok σ.totalRatings) ∧
    (∀ e, (submitRating σ sender ratedUser score ts).2 = .error e →
      (submitRating σ sender ratedUser score ts).1 = σ) := by
  unfold submitRating
  by_cases h0 : ratedUser = 0
  · simp [h0]
  · by_cases hs : ratedUser = sender
    · subst hs
      simp [h0]
    · simp [h0, hs]

/-- Witness for submitRating_validation at concrete inputs. -/
theorem submitRating_validation_witness :
    (submitRating initSt 1 2 5 0).2 = .ok initSt.totalRatings ∧
    (submitRating initSt 1 1 5 0).1 = initSt :=
  ⟨(submitRating_validation initSt 1 2 5 0).2.2.1 (by decide) (by decide),
   (submitRating_validation initSt 1 1 5 0).2.2.2 .SelfRatingRejected (by decide)⟩

/-- C3: every transaction that ends in an error leaves the rating log with its
id counter, the per-subject aggregates, and the authorization relation exactly
as they were: the reverted state equals the pre-state on all three stores. -/
theorem rejected_op_leaves_stores_unchanged (σ : St) (op : Op) (e : Err)
    (h : (runOp σ op).2 = some e) : stores (runOp σ op).1 = stores σ := by
  cases op with
  | submit sender ratedUser score ts =>
    unfold runOp submitRating at *
    by_cases h0 : ratedUser = 0 <;> by_cases hs : ratedUser = sender <;>
      simp_all
  | authorize sender viewer =>
    unfold runOp authorizeViewer at *
    by_cases h0 : viewer = 0 <;> by_cases hs : viewer = sender <;>
      by_cases hc : (getScoreOf σ sender).publicCount = 0 <;>
      by_cases ha : (alookup viewer (getScoreOf σ sender).authorizedViewers).getD false <;>
      simp_all
  | revoke sender viewer =>
    unfold runOp revokeViewer at *
    by_cases ha : (alookup viewer (getScoreOf σ sender).authorizedViewers).getD false <;>
      simp_all
  | getRatingQ ratingId =>
    simp [runOp]

/-- Witness for rejected_op_leaves_stores_unchanged at a concrete revert. -/
theorem rejected_op_leaves_stores_unchanged_witness :
    stores (runOp initSt (.submit 1 1 5 0)).1 = stores initSt :=
  rejected_op_leaves_stores_unchanged initSt (.submit 1 1 5 0)
    .SelfRatingRejected (by decide)

/-- C5: authorizeViewer fails with InvalidViewer exactly on the null viewer,
with SelfAuthorizationRejected exactly on viewer = subject (null check first),
with NoAggregateYet exactly when the caller's visible count is zero, and with
AlreadyAuthorized exactly when the relation is already active; on success it
flips the relation active, extends decryption permission on the subject's
current total and count handles to the viewer, and emits ViewerAuthorized. -/
theorem authorizeViewer_spec (σ : St) (sender viewer : Nat) :
    ((authorizeViewer σ sender viewer).2 = .error .InvalidViewer ↔ viewer = 0) ∧
    ((authorizeViewer σ sender viewer).2 = .error .SelfAuthorizationRejected ↔
      (viewer ≠ 0 ∧ viewer = sender)) ∧
    ((authorizeViewer σ sender viewer).2 = .error .NoAggregateYet ↔
      (viewer ≠ 0 ∧ viewer ≠ sender ∧ (getScoreOf σ sender).publicCount = 0)) ∧
    ((authorizeViewer σ sender viewer).2 = .error .AlreadyAuthorized ↔
      (viewer ≠ 0 ∧ viewer ≠ sender ∧ (getScoreOf σ sender).publicCount ≠ 0 ∧
        (alookup viewer (getScoreOf σ sender).authorizedViewers).getD false = true)) ∧
    ((authorizeViewer σ sender viewer).2 = .ok () →
      isAuthorized (authorizeViewer σ sender viewer).1 sender viewer = true ∧
      ((getScoreOf σ sender).encryptedTotalScore, viewer)
        ∈ (authorizeViewer σ sender viewer).1.fhe.aclUser ∧
      ((getScoreOf σ sender).encryptedCount, viewer)
        ∈ (authorizeViewer σ sender viewer).1.fhe.aclUser ∧
      (authorizeViewer σ sender viewer).1.events
        = σ.events ++ [.ViewerAuthorized sender viewer]) := by
  by_cases h0 : viewer = 0
  · simp [authorizeViewer, h0]
  · by_cases hs : viewer = sender
    · subst hs
      simp [authorizeViewer, h0]
    · by_cases hc : (getScoreOf σ sender).publicCount = 0
      · simp [authorizeViewer, h0, hs, hc]
      · by_cases ha : (alookup viewer (getScoreOf σ sender).authorizedViewers).getD false
        · simp [authorizeViewer, h0, hs, hc, ha]
        · have hs' : sender ≠ viewer := fun h => hs h.symm
          simp [authorizeViewer, h0, hs, hc, ha, isAuthorized, hs',
            FHE.allowU, getScoreOf_mk, alookup_aset_self]

/-- Witness for authorizeViewer_spec at concrete inputs. -/
theorem authorizeViewer_spec_witness :
    isAuthorized (authorizeViewer (submitRatingBody initSt 2 1 5 0) 1 3).1 1 3 = true :=
  ((authorizeViewer_spec (submitRatingBody initSt 2 1 5 0) 1 3).2.2.2.2 (by decide)).1

/-- C6: a successful grant makes isAuthorized true; re-granting immediately
fails with AlreadyAuthorized; revoking then succeeds and makes isAuthorized
false; and revoking while the relation is inactive fails with NotAuthorized. -/
theorem grant_revoke_roundtrip (σ : St) (s v : Nat) :
    ((authorizeViewer σ s v).2 = .ok () →
      isAuthorized (authorizeViewer σ s v).1 s v = true ∧
      (authorizeViewer (authorizeViewer σ s v).1 s v).2 = .error .AlreadyAuthorized ∧
      (revokeViewer (authorizeViewer σ s v).1 s v).2 = .ok () ∧
      isAuthorized (revokeViewer (authorizeViewer σ s v).1 s v).1 s v = false) ∧
    ((alookup v (getScoreOf σ s).authorizedViewers).getD false = false →
      (revokeViewer σ s v).2 = .error .NotAuthorized) := by
  constructor
  · intro hok
    by_cases h0 : v = 0
    · simp [authorizeViewer, h0] at hok
    · by_cases hs : v = s
      · subst hs
        simp [authorizeViewer, h0] at hok
      · by_cases hc : (getScoreOf σ s).publicCount = 0
        · simp [authorizeViewer, h0, hs, hc] at hok
        · by_cases ha : (alookup v (getScoreOf σ s).authorizedViewers).getD false
          · simp [authorizeViewer, h0, hs, hc, ha] at hok
          · have hs' : s ≠ v := fun h => hs h.symm
            simp [authorizeViewer, revokeViewer, h0, hs, hc, ha, isAuthorized,
              hs', FHE.allowU, getScoreOf_mk, alookup_aset_self]
  · intro hna
    simp [revokeViewer, hna]

/-- Witness for grant_revoke_roundtrip at concrete inputs. -/
theorem grant_revoke_roundtrip_witness :
    isAuthorized
      (revokeViewer (authorizeViewer (submitRatingBody initSt 2 1 5 0) 1 3).1 1 3).1
      1 3 = false :=
  ((grant_revoke_roundtrip (submitRatingBody initSt 2 1 5 0) 1 3).1 (by decide)).2.2.2

/-- C2 as stated is false: a currently-authorized viewer does not get a grant
on the refreshed handles after a later fold. Concretely, address 2 rates
address 1, address 1 authorizes address 3, then address 4 rates address 1:
address 3 is still an authorized viewer and the fold replaced the total
handle, yet the new total and count handles carry no grant for address 3. -/
theorem fold_regrant_to_viewers_counterexample :
    (isAuthorized (submitRatingBody (authorizeViewer (submitRatingBody initSt 2 1 5 0) 1 3).1 4 1 4 1) 1 3 = true) ∧
    (getScoreOf (submitRatingBody (authorizeViewer (submitRatingBody initSt 2 1 5 0) 1 3).1 4 1 4 1) 1).encryptedTotalScore
      ≠ (getScoreOf (authorizeViewer (submitRatingBody initSt 2 1 5 0) 1 3).1 1).encryptedTotalScore ∧
    ¬ ((getScoreOf (submitRatingBody (authorizeViewer (submitRatingBody initSt 2 1 5 0) 1 3).1 4 1 4 1) 1).encryptedTotalScore, 3)
        ∈ (submitRatingBody (authorizeViewer (submitRatingBody initSt 2 1 5 0) 1 3).1 4 1 4 1).fhe.aclUser ∧
    ¬ ((getScoreOf (submitRatingBody (authorizeViewer (submitRatingBody initSt 2 1 5 0) 1 3).1 4 1 4 1) 1).encryptedCount, 3)
        ∈ (submitRatingBody (authorizeViewer (submitRatingBody initSt 2 1 5 0) 1 3).1 4 1 4 1).fhe.aclUser := by
  decide

/-- C2 amended: after every successful submitRating, the refreshed total and
count handles are re-granted to the contract (the ledger operator) and to the
subject; currently-authorized viewers receive no grant on the new handles. -/
theorem fold_regrants_operator_and_subject (σ : St) (sender u score ts res : Nat)
    (h : (submitRating σ sender u score ts).2 = .ok res) :
    (getScoreOf (submitRating σ sender u score ts).1 u).encryptedTotalScore
      ∈ (submitRating σ sender u score ts).1.fhe.aclThis ∧
    (getScoreOf (submitRating σ sender u score ts).1 u).encryptedCount
      ∈ (submitRating σ sender u score ts).1.fhe.aclThis ∧
    ((getScoreOf (submitRating σ sender u score ts).1 u).encryptedTotalScore, u)
      ∈ (submitRating σ sender u score ts).1.fhe.aclUser ∧
    ((getScoreOf (submitRating σ sender u score ts).1 u).encryptedCount, u)
      ∈ (submitRating σ sender u score ts).1.fhe.aclUser := by
  by_cases h0 : u = 0
  · simp [submitRating, h0] at h
  · by_cases hs : u = sender
    · subst hs
      simp [submitRating, h0] at h
    · simp [submitRating, h0, hs, submitRatingBody,
        FHE.allowThis, FHE.allowU, getScoreOf_mk, alookup_aset_self]

/-- Witness for fold_regrants_operator_and_subject at concrete inputs. -/
theorem fold_regrants_operator_and_subject_witness :
    ((getScoreOf (submitRating initSt 2 1 5 0).1 1).encryptedTotalScore, 1)
      ∈ (submitRating initSt 2 1 5 0).1.fhe.aclUser :=
  (fold_regrants_operator_and_subject initSt 2 1 5 0 0 (by decide)).2.2.1

/-- In every reachable state the fresh-handle counter is positive and a
subject's public count is zero exactly when both aggregate handles are still
the uninitialized zero handle. -/
theorem reachable_handle_inv (σ : St) (h : Reachable σ) :
    1 ≤ σ.fhe.nextHandle ∧
    ∀ u, ((getScoreOf σ u).publicCount = 0 ↔
      ((getScoreOf σ u).encryptedTotalScore = 0 ∧
       (getScoreOf σ u).encryptedCount = 0)) := by
  induction h with
  | init =>
    exact ⟨by simp [initSt], by intro u; simp [getScoreOf, initSt, alookup, emptyUserScore]⟩
  | step σ op hR ih =>
    obtain ⟨ihn, ihu⟩ := ih
    cases op with
    | submit sender u score ts =>
      by_cases h0 : u = 0
      · have hσ : (runOp σ (.submit sender u score ts)).1 = σ := by
          simp [runOp, submitRating, h0]
        rw [hσ]
        exact ⟨ihn, ihu⟩
      · by_cases hs : u = sender
        · have hσ : (runOp σ (.submit sender u score ts)).1 = σ := by
            simp [runOp, submitRating, hs, hs ▸ h0]
          rw [hσ]
          exact ⟨ihn, ihu⟩
        · have hb : (runOp σ (.submit sender u score ts)).1
              = submitRatingBody σ sender u score ts := by
            simp [runOp, submitRating, h0, hs]
          rw [hb]
          by_cases hpc : (getScoreOf σ u).publicCount = 0
          · obtain ⟨hsc, hnx, -, -⟩ := body_first σ sender u score ts hpc
            refine ⟨by omega, ?_⟩
            intro w
            by_cases hw : w = u
            · subst hw
              rw [hsc]
              simp
            · rw [getScoreOf_body_other σ sender u score ts w hw]
              exact ihu w
          · obtain ⟨hsc, hnx⟩ := body_fold_score σ sender u score ts hpc
            refine ⟨by omega, ?_⟩
            intro w
            by_cases hw : w = u
            · subst hw
              rw [hsc]
              simp
            · rw [getScoreOf_body_other σ sender u score ts w hw]
              exact ihu w
    | authorize s v =>
      obtain ⟨-, -, -, hnx, -, hw⟩ := authorize_preserves σ s v
      have hr : (runOp σ (.authorize s v)).1 = (authorizeViewer σ s v).1 := by
        simp [runOp]
      rw [hr]
      refine ⟨by omega, ?_⟩
      intro w
      obtain ⟨hp, ht, hc⟩ := hw w
      rw [hp, ht, hc]
      exact ihu w
    | revoke s v =>
      obtain ⟨-, -, -, hf, hw⟩ := revoke_preserves σ s v
      have hr : (runOp σ (.revoke s v)).1 = (revokeViewer σ s v).1 := by
        simp [runOp]
      rw [hr]
      refine ⟨by rw [hf]; exact ihn, ?_⟩
      intro w
      obtain ⟨hp, ht, hc⟩ := hw w
      rw [hp, ht, hc]
      exact ihu w
    | getRatingQ id =>
      have hr : (runOp σ (.getRatingQ id)).1 = σ := by simp [runOp]
      rw [hr]
      exact ⟨ihn, ihu⟩

/-- C8: in every reachable state a subject's visible count is zero exactly
when both aggregate handles are absent (still the uninitialized default);
every successful submitRating bumps the subject's visible count by exactly
one; and no operation ever decreases any subject's visible count. -/
theorem visible_count_invariant :
    (∀ σ, Reachable σ → ∀ u,
      ((getScoreOf σ u).publicCount = 0 ↔
        ((getScoreOf σ u).encryptedTotalScore = 0 ∧
         (getScoreOf σ u).encryptedCount = 0))) ∧
    (∀ σ sender u score ts res,
      (submitRating σ sender u score ts).2 = .ok res →
      (getScoreOf (submitRating σ sender u score ts).1 u).publicCount
        = (getScoreOf σ u).publicCount + 1) ∧
    (∀ σ op u, (getScoreOf σ u).publicCount
        ≤ (getScoreOf (runOp σ op).1 u).publicCount) := by
  refine ⟨fun σ h u => (reachable_handle_inv σ h).2 u, ?_, ?_⟩
  · intro σ sender u score ts res hok
    by_cases h0 : u = 0
    · simp [submitRating, h0] at hok
    · by_cases hs : u = sender
      · subst hs
        simp [submitRating, h0] at hok
      · have hb : (submitRating σ sender u score ts).1
            = submitRatingBody σ sender u score ts := by
          simp [submitRating, h0, hs]
        rw [hb]
        exact (body_publicCount_self σ sender u score ts).1
  · intro σ op u
    cases op with
    | submit sender ru score ts =>
      by_cases h0 : ru = 0
      · simp [runOp, submitRating, h0]
      · by_cases hs : ru = sender
        · simp [runOp, submitRating, hs, hs ▸ h0]
        · have hb : (runOp σ (.submit sender ru score ts)).1
              = submitRatingBody σ sender ru score ts := by
            simp [runOp, submitRating, h0, hs]
          rw [hb]
          by_cases hw : u = ru
          · subst hw
            have := (body_publicCount_self σ sender u score ts).1
            omega
          · rw [getScoreOf_body_other σ sender ru score ts u hw]
    | authorize s v =>
      obtain ⟨-, -, -, -, -, hw⟩ := authorize_preserves σ s v
      have hr : (runOp σ (.authorize s v)).1 = (authorizeViewer σ s v).1 := by
        simp [runOp]
      rw [hr, (hw u).1]
    | revoke s v =>
      obtain ⟨-, -, -, -, hw⟩ := revoke_preserves σ s v
      have hr : (runOp σ (.revoke s v)).1 = (revokeViewer σ s v).1 := by
        simp [runOp]
      rw [hr, (hw u).1]
    | getRatingQ id =>
      simp [runOp]

/-- Witness for visible_count_invariant: the reachable state after one rating. -/
theorem visible_count_invariant_witness :
    ((getScoreOf (runOp initSt (.submit 2 1 5 0)).1 1).publicCount = 0 ↔
      ((getScoreOf (runOp initSt (.submit 2 1 5 0)).1 1).encryptedTotalScore = 0 ∧
       (getScoreOf (runOp initSt (.submit 2 1 5 0)).1 1).encryptedCount = 0)) :=
  visible_count_invariant.1 (runOp initSt (.submit 2 1 5 0)).1
    (Reachable.step initSt (.submit 2 1 5 0) Reachable.init) 1

/-- C10: in every reachable state, every subject's plaintext visible counter
equals the length of that subject's rating-id index. -/
theorem visible_count_matches_index (σ : St) (h : Reachable σ) (u : Nat) :
    (getScoreOf σ u).publicCount = (getUserRatings σ u).length := by
  induction h with
  | init =>
    simp [getScoreOf, getUserRatings, getRatingsOf, initSt, alookup, emptyUserScore]
  | step σ op hR ih =>
    cases op with
    | submit sender ru score ts =>
      by_cases h0 : ru = 0
      · have hσ : (runOp σ (.submit sender ru score ts)).1 = σ := by
          simp [runOp, submitRating, h0]
        rw [hσ]
        exact ih
      · by_cases hs : ru = sender
        · have hσ : (runOp σ (.submit sender ru score ts)).1 = σ := by
            simp [runOp, submitRating, hs, hs ▸ h0]
          rw [hσ]
          exact ih
        · have hb : (runOp σ (.submit sender ru score ts)).1
              = submitRatingBody σ sender ru score ts := by
            simp [runOp, submitRating, h0, hs]
          rw [hb]
          by_cases hw : u = ru
          · subst hw
            have h1 := (body_publicCount_self σ sender u score ts).1
            have h2 := (body_misc σ sender u score ts).2.2.1
            simp only [getUserRatings] at *
            rw [h1, h2]
            simp [ih]
          · have h1 := getScoreOf_body_other σ sender ru score ts u hw
            have h2 := (body_misc σ sender ru score ts).2.2.2.1 u hw
            simp only [getUserRatings] at *
            rw [h1, h2]
            exact ih
    | authorize s v =>
      obtain ⟨hur, -, -, -, -, hw⟩ := authorize_preserves σ s v
      have hr : (runOp σ (.authorize s v)).1 = (authorizeViewer σ s v).1 := by
        simp [runOp]
      rw [hr]
      simp only [getUserRatings, getRatingsOf, hur, (hw u).1]
      exact ih
    | revoke s v =>
      obtain ⟨hur, -, -, -, hw⟩ := revoke_preserves σ s v
      have hr : (runOp σ (.revoke s v)).1 = (revokeViewer σ s v).1 := by
        simp [runOp]
      rw [hr]
      simp only [getUserRatings, getRatingsOf, hur, (hw u).1]
      exact ih
    | getRatingQ id =>
      have hr : (runOp σ (.getRatingQ id)).1 = σ := by simp [runOp]
      rw [hr]
      exact ih

/-- Witness for visible_count_matches_index: the state after one rating. -/
theorem visible_count_matches_index_witness :
    (getScoreOf (runOp initSt (.submit 2 1 5 0)).1 1).publicCount
      = (getUserRatings (runOp initSt (.submit 2 1 5 0)).1 1).length :=
  visible_count_matches_index (runOp initSt (.submit 2 1 5 0)).1
    (Reachable.step initSt (.submit 2 1 5 0) Reachable.init) 1

/-- In every reachable state the assigned rating ids are exactly the naturals
below the global counter. -/
theorem reachable_ids_inv (σ : St) (h : Reachable σ) :
    ∀ id, (alookup id σ.ratings).isSome = true ↔ id < σ.totalRatings := by
  induction h with
  | init =>
    intro id
    simp [initSt, alookup]
  | step σ op hR ih =>
    cases op with
    | submit sender ru score ts =>
      by_cases h0 : ru = 0
      · have hσ : (runOp σ (.submit sender ru score ts)).1 = σ := by
          simp [runOp, submitRating, h0]
        rw [hσ]
        exact ih
      · by_cases hs : ru = sender
        · have hσ : (runOp σ (.submit sender ru score ts)).1 = σ := by
            simp [runOp, submitRating, hs, hs ▸ h0]
          rw [hσ]
          exact ih
        · have hb : (runOp σ (.submit sender ru score ts)).1
              = submitRatingBody σ sender ru score ts := by
            simp [runOp, submitRating, h0, hs]
          rw [hb]
          obtain ⟨htot, hrat, -, -, -⟩ := body_misc σ sender ru score ts
          rw [htot, hrat]
          intro id
          by_cases hid : id = σ.totalRatings
          · subst hid
            simp [alookup_aset_self]
          · rw [alookup_aset_ne _ _ _ _ hid, ih id]
            omega
    | authorize s v =>
      obtain ⟨-, hrat, htot, -, -, -⟩ := authorize_preserves σ s v
      have hr : (runOp σ (.authorize s v)).1 = (authorizeViewer σ s v).1 := by
        simp [runOp]
      rw [hr, hrat, htot]
      exact ih
    | revoke s v =>
      obtain ⟨-, hrat, htot, -, -⟩ := revoke_preserves σ s v
      have hr : (runOp σ (.revoke s v)).1 = (revokeViewer σ s v).1 := by
        simp [runOp]
      rw [hr, hrat, htot]
      exact ih
    | getRatingQ id =>
      have hr : (runOp σ (.getRatingQ id)).1 = σ := by simp [runOp]
      rw [hr]
      exact ih

/-- C9: every successful submitRating returns the current value of the global
counter as the new id and bumps the counter; the subject's index gets exactly
that id appended while other subjects' indexes are untouched and previously
stored ratings keep their bindings; in every reachable state the assigned ids
are exactly 0..totalRatings-1; and the counter never decreases, so ids are
never reused. -/
theorem rating_ids_sequential :
    (∀ σ sender u score ts res,
      (submitRating σ sender u score ts).2 = .ok res →
      res = σ.totalRatings ∧
      (submitRating σ sender u score ts).1.totalRatings = σ.totalRatings + 1 ∧
      getUserRatings (submitRating σ sender u score ts).1 u
        = getUserRatings σ u ++ [res] ∧
      (∀ w, w ≠ u → getUserRatings (submitRating σ sender u score ts).1 w
        = getUserRatings σ w) ∧
      (∀ j, j < σ.totalRatings →
        alookup j (submitRating σ sender u score ts).1.ratings
          = alookup j σ.ratings)) ∧
    (∀ σ, Reachable σ →
      ∀ id, (alookup id σ.ratings).isSome = true ↔ id < σ.totalRatings) ∧
    (∀ σ op, σ.totalRatings ≤ (runOp σ op).1.totalRatings) := by
  refine ⟨?_, fun σ h => reachable_ids_inv σ h, ?_⟩
  · intro σ sender u score ts res hok
    by_cases h0 : u = 0
    · simp [submitRating, h0] at hok
    · by_cases hs : u = sender
      · subst hs
        simp [submitRating, h0] at hok
      · have hres : res = σ.totalRatings := by
          simp [submitRating, h0, hs] at hok
          omega
        subst hres
        have hb : (submitRating σ sender u score ts).1
            = submitRatingBody σ sender u score ts := by
          simp [submitRating, h0, hs]
        rw [hb]
        obtain ⟨htot, hrat, hidx, hoth, -⟩ := body_misc σ sender u score ts
        refine ⟨rfl, htot, ?_, ?_, ?_⟩
        · simpa [getUserRatings] using hidx
        · intro w hw
          simpa [getUserRatings] using hoth w hw
        · intro j hj
          rw [hrat, alookup_aset_ne _ _ _ _ (by omega)]
  · intro σ op
    cases op with
    | submit sender ru score ts =>
      by_cases h0 : ru = 0
      · simp [runOp, submitRating, h0]
      · by_cases hs : ru = sender
        · simp [runOp, submitRating, hs, hs ▸ h0]
        · have hb : (runOp σ (.submit sender ru score ts)).1
              = submitRatingBody σ sender ru score ts := by
            simp [runOp, submitRating, h0, hs]
          rw [hb, (body_misc σ sender ru score ts).1]
          omega
    | authorize s v =>
      obtain ⟨-, -, htot, -, -, -⟩ := authorize_preserves σ s v
      have hr : (runOp σ (.authorize s v)).1 = (authorizeViewer σ s v).1 := by
        simp [runOp]
      rw [hr, htot]
    | revoke s v =>
      obtain ⟨-, -, htot, -, -⟩ := revoke_preserves σ s v
      have hr : (runOp σ (.revoke s v)).1 = (revokeViewer σ s v).1 := by
        simp [runOp]
      rw [hr, htot]
    | getRatingQ id =>
      simp [runOp]

/-- Witness for rating_ids_sequential at a concrete successful submission. -/
theorem rating_ids_sequential_witness :
    getUserRatings (submitRating initSt 2 1 5 0).1 1
      = getUserRatings initSt 1 ++ [0] :=
  (rating_ids_sequential.1 initSt 2 1 5 0 0 (by decide)).2.2.1

/-- One successful fold extends the plaintext oracle: if subject u's
aggregate holds exactly the scores in the list, then after the submitRating
success path it holds exactly those scores plus the new one. -/
theorem goodAgg_step (σ : St) (u sender score ts : Nat) (scores : List Nat)
    (hg : GoodAgg σ u scores) :
    GoodAgg (submitRatingBody σ sender u score ts) u (scores ++ [score]) := by
  obtain ⟨hpc, htot, hcnt, hnx, hdec⟩ := hg
  by_cases hb : scores = []
  · subst hb
    have hpc0 : (getScoreOf σ u).publicCount = 0 := by simpa using hpc
    obtain ⟨hsc, hnx2, hdt, hdc⟩ := body_first σ sender u score ts hpc0
    refine ⟨by simp [hsc], ?_, ?_, by omega, ?_⟩
    · rw [hsc, hnx2]
      simp
    · rw [hsc, hnx2]
      simp
    · intro _
      rw [hsc]
      simp [hdt, hdc]
  · have hpcne : (getScoreOf σ u).publicCount ≠ 0 := by
      rw [hpc]
      simpa using hb
    obtain ⟨hd1, hd2⟩ := hdec hb
    obtain ⟨hsc, hnx4⟩ := body_fold_score σ sender u score ts hpcne
    obtain ⟨hft, hfc⟩ := body_fold_decrypt σ sender u score ts hpcne htot hcnt
    refine ⟨?_, ?_, ?_, by omega, ?_⟩
    · rw [hsc]
      simp [hpc]
    · rw [hsc, hnx4]
      simp
    · rw [hsc, hnx4]
      simp
    · intro _
      rw [hsc]
      constructor
      · simpa [hd1] using hft
      · simpa [hd2, hpc] using hfc

/-- Running a list of valid submissions for subject u from any state whose
aggregate matches the accumulated score list succeeds and extends the match
by the submitted scores. -/
theorem runSubmits_goodAgg (u : Nat) (hu : u ≠ 0) :
    ∀ (subs : List (Nat × Nat × Nat)) (σ : St) (scores : List Nat),
      (∀ x ∈ subs, x.1 ≠ u) → GoodAgg σ u scores →
      ∃ σf, runSubmits σ u subs = some σf ∧
        GoodAgg σf u (scores ++ subs.map (fun x => x.2.1)) := by
  intro subs
  induction subs with
  | nil =>
    intro σ scores _ hg
    exact ⟨σ, rfl, by simpa using hg⟩
  | cons x rest ih =>
    intro σ scores hsub hg
    obtain ⟨rater, score, ts⟩ := x
    have hrne : rater ≠ u := hsub (rater, score, ts) (by simp)
    have hune : u ≠ rater := fun h => hrne h.symm
    have hrun : runSubmits σ u ((rater, score, ts) :: rest)
        = runSubmits (submitRatingBody σ rater u score ts) u rest := by
      simp [runSubmits, submitRating, hu, hune]
    rw [hrun]
    obtain ⟨σf, hrf, hgf⟩ :=
      ih (submitRatingBody σ rater u score ts) (scores ++ [score])
        (fun y hy => hsub y (List.mem_cons_of_mem _ hy))
        (goodAgg_step σ u rater score ts scores hg)
    refine ⟨σf, hrf, ?_⟩
    simpa [List.append_assoc] using hgf

/-- C1: for every nonempty sequence of valid submissions for one subject from
a fresh deployment (each rater distinct from the subject), every call
succeeds, and afterwards the aggregate's visible count equals the number of
submissions, the total handle decrypts (in the test-double capability) to the
sum of the plaintext scores, and the count handle decrypts to their number. -/
theorem aggregate_plaintext_oracle (subject : Nat) (subs : List (Nat × Nat × Nat))
    (h0 : subject ≠ 0) (hr : ∀ x ∈ subs, x.1 ≠ subject) (hne : subs ≠ []) :
    ∃ σf, runSubmits initSt subject subs = some σf ∧
      (getEncryptedScore σf subject).2.2 = subs.length ∧
      FHE.decrypt σf.fhe (getEncryptedScore σf subject).1
        = some (subs.map (fun x => x.2.1)).sum ∧
      FHE.decrypt σf.fhe (getEncryptedScore σf subject).2.1
        = some subs.length := by
  have hinit : GoodAgg initSt subject [] := by
    simp [GoodAgg, getScoreOf, initSt, alookup, emptyUserScore]
  obtain ⟨σf, hrun, hgf⟩ := runSubmits_goodAgg subject h0 subs initSt [] hr hinit
  obtain ⟨hpc, -, -, -, hdec⟩ := hgf
  obtain ⟨hd1, hd2⟩ := hdec (by simp [hne])
  refine ⟨σf, hrun, ?_, ?_, ?_⟩
  · simpa [getEncryptedScore] using hpc
  · simpa [getEncryptedScore] using hd1
  · simpa [getEncryptedScore] using hd2

/-- Witness for aggregate_plaintext_oracle: address 2 rates subject 1 with 5
stars and address 3 rates subject 1 with 3 stars. -/
theorem aggregate_plaintext_oracle_witness :
    ∃ σf, runSubmits initSt 1 [(2, 5, 0), (3, 3, 1)] = some σf ∧
      (getEncryptedScore σf 1).2.2 = 2 ∧
      FHE.decrypt σf.fhe (getEncryptedScore σf 1).1 = some 8 ∧
      FHE.decrypt σf.fhe (getEncryptedScore σf 1).2.1 = some 2 :=
  aggregate_plaintext_oracle 1 [(2, 5, 0), (3, 3, 1)]
    (by decide) (by decide) (by decide)


end TrustVault
